import Mathlib

/-!
# Verification of the content-addressable store CLI (`src/main.js`)

Shallow embedding of the CAS tool: SHA-256 digests, the sharded blob
store, the read-transform-write edit pipeline, the audit log, and the
LLM ingestion path.  Byte sequences are `List Nat` (each entry a byte
value), JS strings are modelled as lists of Unicode code points
(`Text := List Nat`); the filesystem holding the CAS directory is an
association list from sharded locations to byte sequences.
-/

namespace CasTool

/-- Byte sequences (`Buffer` contents in the source). -/
abbrev Bytes := List Nat

/-- Decoded text: a JS string, modelled as its list of Unicode code
points.  (Lone UTF-16 surrogates, which a JS string can technically
hold, are not modelled; no claim depends on them.) -/
abbrev Text := List Nat

/-! ## SHA-256 (`computeHash`, src/main.js lines 33-35)

`crypto.createHash('sha256')` is embedded as a full executable SHA-256
over byte lists, producing the hex string digest.  Words are `Nat`
truncated with `w32`. -/

/-- Truncate to a 32-bit word. -/
def w32 (n : Nat) : Nat := n % 4294967296

/-- Rotate a 32-bit word right by `n` bits (input assumed `< 2^32`). -/
def rotr32 (x n : Nat) : Nat := (x >>> n) ||| w32 (x <<< (32 - n))

def shaCh (x y z : Nat) : Nat := (x &&& y) ^^^ ((x ^^^ 4294967295) &&& z)

def shaMaj (x y z : Nat) : Nat := (x &&& y) ^^^ (x &&& z) ^^^ (y &&& z)

def bigSigma0 (x : Nat) : Nat := rotr32 x 2 ^^^ rotr32 x 13 ^^^ rotr32 x 22

def bigSigma1 (x : Nat) : Nat := rotr32 x 6 ^^^ rotr32 x 11 ^^^ rotr32 x 25

def smallSigma0 (x : Nat) : Nat := rotr32 x 7 ^^^ rotr32 x 18 ^^^ (x >>> 3)

def smallSigma1 (x : Nat) : Nat := rotr32 x 17 ^^^ rotr32 x 19 ^^^ (x >>> 10)

/-- The 64 SHA-256 round constants. -/
def sha256K : List Nat :=
  [1116352408, 1899447441, 3049323471, 3921009573, 961987163, 1508970993,
   2453635748, 2870763221, 3624381080, 310598401, 607225278, 1426881987,
   1925078388, 2162078206, 2614888103, 3248222580, 3835390401, 4022224774,
   264347078, 604807628, 770255983, 1249150122, 1555081692, 1996064986,
   2554220882, 2821834349, 2952996808, 3210313671, 3336571891, 3584528711,
   113926993, 338241895, 666307205, 773529912, 1294757372, 1396182291,
   1695183700, 1986661051, 2177026350, 2456956037, 2730485921, 2820302411,
   3259730800, 3345764771, 3516065817, 3600352804, 4094571909, 275423344,
   430227734, 506948616, 659060556, 883997877, 958139571, 1322822218,
   1537002063, 1747873779, 1955562222, 2024104815, 2227730452, 2361852424,
   2428436474, 2756734187, 3204031479, 3329325298]

/-- Big-endian 8-byte encoding of a (64-bit) length. -/
def be64 (n : Nat) : List Nat :=
  [(n >>> 56) % 256, (n >>> 48) % 256, (n >>> 40) % 256, (n >>> 32) % 256,
   (n >>> 24) % 256, (n >>> 16) % 256, (n >>> 8) % 256, n % 256]

/-- Big-endian 4-byte encoding of a 32-bit word. -/
def be32 (w : Nat) : List Nat :=
  [(w >>> 24) % 256, (w >>> 16) % 256, (w >>> 8) % 256, w % 256]

/-- SHA-256 message padding: `0x80`, zeros to 56 mod 64, then the
bit length as 8 big-endian bytes. -/
def shaPad (msg : Bytes) : List Nat :=
  msg ++ [128] ++ List.replicate ((120 - (msg.length + 1) % 64) % 64) 0
      ++ be64 (8 * msg.length)

/-- Group bytes into big-endian 32-bit words. -/
def toWords : List Nat → List Nat
  | b0 :: b1 :: b2 :: b3 :: rest =>
      ((b0 <<< 24) ||| (b1 <<< 16) ||| (b2 <<< 8) ||| b3) :: toWords rest
  | _ => []

/-- Split a byte list into 64-byte blocks; `fuel` bounds the number of
blocks (any `fuel ≥ length / 64 + 1` gives the same result). -/
def chunksGo : Nat → List Nat → List (List Nat)
  | _, [] => []
  | 0, _ :: _ => []
  | fuel + 1, b :: rest => (b :: rest).take 64 :: chunksGo fuel ((b :: rest).drop 64)

/-- Split a byte list into 64-byte blocks. -/
def chunks64 (l : List Nat) : List (List Nat) := chunksGo l.length l

/-- The eight 32-bit words of SHA-256 working state. -/
structure Hash8 where
  a : Nat
  b : Nat
  c : Nat
  d : Nat
  e : Nat
  f : Nat
  g : Nat
  h : Nat
deriving Repr, DecidableEq

def sha256Init : Hash8 :=
  ⟨1779033703, 3144134277, 1013904242, 2773480762,
   1359893119, 2600822924, 528734635, 1541459225⟩

/-- One SHA-256 round; `kw` is `K[t] + W[t]` already truncated. -/
def shaStep (s : Hash8) (kw : Nat) : Hash8 :=
  let t1 := w32 (s.h + bigSigma1 s.e + shaCh s.e s.f s.g + kw)
  let t2 := w32 (bigSigma0 s.a + shaMaj s.a s.b s.c)
  ⟨w32 (t1 + t2), s.a, s.b, s.c, w32 (s.d + t1), s.e, s.f, s.g⟩

/-- Extend the 16 message words by `k` more schedule words. -/
def extendW : Nat → List Nat → List Nat
  | 0, w => w
  | k + 1, w =>
      extendW k (w ++ [w32 (smallSigma1 (w.getD (w.length - 2) 0)
        + w.getD (w.length - 7) 0
        + smallSigma0 (w.getD (w.length - 15) 0)
        + w.getD (w.length - 16) 0)])

/-- Compress one 64-byte block into the state. -/
def shaCompress (st : Hash8) (block : List Nat) : Hash8 :=
  let ws := extendW 48 (toWords block)
  let kws := List.zipWith (fun k w => w32 (k + w)) sha256K ws
  let r := kws.foldl shaStep st
  ⟨w32 (st.a + r.a), w32 (st.b + r.b), w32 (st.c + r.c), w32 (st.d + r.d),
   w32 (st.e + r.e), w32 (st.f + r.f), w32 (st.g + r.g), w32 (st.h + r.h)⟩

/-- SHA-256 of a byte sequence, as 32 bytes. -/
def sha256 (msg : Bytes) : List Nat :=
  let st := (chunks64 (shaPad msg)).foldl shaCompress sha256Init
  ([st.a, st.b, st.c, st.d, st.e, st.f, st.g, st.h].map be32).flatten

/-- Lower-case hex digit. -/
def hexChar (n : Nat) : Char := Char.ofNat (if n < 10 then 48 + n else 87 + n)

/-- Lower-case hex string of a byte list. -/
def bytesToHex (bs : List Nat) : String :=
  String.mk ((bs.map (fun b => [hexChar (b / 16), hexChar (b % 16)])).flatten)

/-- `computeHash` (src/main.js lines 33-35): hex SHA-256 digest. -/
def computeHash (data : Bytes) : String := bytesToHex (sha256 data)

/-! ## Blob store (`getFilePath`, `writeCAS`, `readCAS`) -/

/-- A sharded storage location: (subdirectory, entry name). -/
abbrev Loc := String × String

/-- `getFilePath` (src/main.js lines 37-42): first 2 characters of the
hash name the subdirectory, the rest the file.  (JS `slice` counts
UTF-16 units, `String.take` counts characters; identical on the hex
digests actually used.) -/
def getFilePath (hash : String) : Loc := (hash.take 2, hash.drop 2)

/-- The CAS directory contents: an association list from locations to
the stored bytes.  (`mkdirSync` has no observable effect in this
model.) -/
abbrev Store := List (Loc × Bytes)

/-- Filesystem lookup at a location. -/
def lookupLoc (s : Store) (p : Loc) : Option Bytes :=
  match s with
  | [] => none
  | e :: rest => if e.1 = p then some e.2 else lookupLoc rest p

/-- `fs.existsSync` on the path of a location. -/
def existsAt (s : Store) (p : Loc) : Bool := (lookupLoc s p).isSome

/-- Errors thrown by the tool (`throw new Error(...)` in the source). -/
inductive Err where
  /-- `` `${name} not found in CAS` `` (src/main.js line 97). -/
  | notFound (name : String)
  /-- `` `line ${n} out of range (...)` `` (lines 146, 158, 170). -/
  | outOfRange (msg : String)
  /-- `OPENROUTER_API_KEY environment variable not set` (line 189). -/
  | noApiKey
  /-- `` `OpenRouter API error: ${status} ${text}` `` (line 210). -/
  | upstream (status : Nat) (body : String)
deriving Repr, DecidableEq

/-- The single-line message carried by each error. -/
def Err.message : Err → String
  | .notFound name => name ++ " not found in CAS"
  | .outOfRange msg => msg
  | .noApiKey => "OPENROUTER_API_KEY environment variable not set"
  | .upstream status body =>
      "OpenRouter API error: " ++ toString status ++ " " ++ body

/-- `writeCAS` (src/main.js lines 108-120): hash the data, write it at
the derived location only if nothing exists there, return the hash
unconditionally. -/
def writeCAS (s : Store) (data : Bytes) : Store × String :=
  if existsAt s (getFilePath (computeHash data)) then (s, computeHash data)
  else ((getFilePath (computeHash data), data) :: s, computeHash data)

/-- `readCAS` (src/main.js lines 93-101): fail when nothing exists at
the derived location, else return the stored bytes. -/
def readCAS (s : Store) (name : String) : Except Err Bytes :=
  match lookupLoc s (getFilePath name) with
  | some data => .ok data
  | none => .error (.notFound name)

/-! ## UTF-8 (`data.toString('utf8')` / `Buffer.from(text, 'utf8')`)

Node's lossy UTF-8 decode and the UTF-8 encode used by `edit`
(src/main.js lines 125, 127), modelled over code-point lists.  The
decoder replaces ill-formed input with U+FFFD; replacement granularity
for multi-byte errors is one byte per replacement, which only affects
inputs that are already invalid. -/

/-- Valid Unicode scalar value (not a surrogate, below 0x110000). -/
def ValidCp (c : Nat) : Prop := c < 55296 ∨ (57343 < c ∧ c < 1114112)

instance (c : Nat) : Decidable (ValidCp c) := by unfold ValidCp; infer_instance

/-- UTF-8 encoding of one code point (1-4 bytes). -/
def utf8EncodeCp (c : Nat) : List Nat :=
  if c < 128 then [c]
  else if c < 2048 then [192 + c / 64, 128 + c % 64]
  else if c < 65536 then [224 + c / 4096, 128 + c / 64 % 64, 128 + c % 64]
  else [240 + c / 262144, 128 + c / 4096 % 64, 128 + c / 64 % 64, 128 + c % 64]

/-- UTF-8 encoding of a text. -/
def utf8Encode : Text → Bytes
  | [] => []
  | c :: t => utf8EncodeCp c ++ utf8Encode t

/-- Is `b` a UTF-8 continuation byte? -/
def isCont (b : Nat) : Bool := decide (128 ≤ b ∧ b < 192)

/-- Constraint on the second byte of a 3-byte sequence (excludes
overlong forms under lead 0xE0 and surrogates under lead 0xED). -/
def cont3ok (b0 b1 : Nat) : Bool :=
  if b0 = 224 then decide (160 ≤ b1 ∧ b1 < 192)
  else if b0 = 237 then decide (128 ≤ b1 ∧ b1 < 160)
  else isCont b1

/-- Constraint on the second byte of a 4-byte sequence (excludes
overlong forms under lead 0xF0 and values above 0x10FFFF under 0xF4). -/
def cont4ok (b0 b1 : Nat) : Bool :=
  if b0 = 240 then decide (144 ≤ b1 ∧ b1 < 192)
  else if b0 = 244 then decide (128 ≤ b1 ∧ b1 < 144)
  else isCont b1

/-- Decode one code point from lead byte `b0` followed by `rest`:
returns the code point (U+FFFD on error) and how many bytes of `rest`
were consumed beyond the lead byte. -/
def utf8Step (b0 : Nat) (rest : List Nat) : Nat × Nat :=
  if b0 < 128 then (b0, 0)
  else if b0 < 194 then (65533, 0)
  else if b0 < 224 then
    match rest with
    | b1 :: _ =>
        if isCont b1 then ((b0 - 192) * 64 + (b1 - 128), 1) else (65533, 0)
    | _ => (65533, 0)
  else if b0 < 240 then
    match rest with
    | b1 :: b2 :: _ =>
        if cont3ok b0 b1 && isCont b2 then
          ((b0 - 224) * 4096 + (b1 - 128) * 64 + (b2 - 128), 2)
        else (65533, 0)
    | _ => (65533, 0)
  else if b0 < 245 then
    match rest with
    | b1 :: b2 :: b3 :: _ =>
        if cont4ok b0 b1 && isCont b2 && isCont b3 then
          ((b0 - 240) * 262144 + (b1 - 128) * 4096 + (b2 - 128) * 64
            + (b3 - 128), 3)
        else (65533, 0)
    | _ => (65533, 0)
  else (65533, 0)

/-- Lossy UTF-8 decoding of a byte sequence. -/
def lossyDecode : Bytes → Text
  | [] => []
  | b0 :: rest =>
      (utf8Step b0 rest).1 :: lossyDecode (rest.drop (utf8Step b0 rest).2)
  termination_by l => l.length
  decreasing_by simp [List.length_drop]; omega

/-! ## Edit pipeline (`edit`, src/main.js lines 123-130)

A transform is a function on decoded text that may throw; `edit` reads
the source blob, decodes, transforms, encodes, and writes the result.
A thrown error propagates with the store untouched; the model returns
the store alongside the outcome so that the on-disk state is explicit
on every path. -/

/-- A text transform that may throw. -/
abbrev Tf := Text → Except Err Text

/-- `edit` (src/main.js lines 123-130). -/
def edit (s : Store) (name : String) (tf : Tf) : Store × Except Err String :=
  match readCAS s name with
  | .error e => (s, .error e)
  | .ok data =>
    match tf (lossyDecode data) with
    | .error e => (s, .error e)
    | .ok newText => ((writeCAS s (utf8Encode newText)).1,
        .ok (writeCAS s (utf8Encode newText)).2)

/-! ## Text transforms (src/main.js lines 133-183)

JS strings are code-point lists here.  `text.replace(old, new)` with a
string pattern replaces the first occurrence (`$`-substitution
patterns in the replacement are not modelled; no claim uses them);
`text.split(old).join(new)` replaces every occurrence. -/

/-- First-occurrence literal replacement (`String.prototype.replace`
with a string pattern).  When `old` is empty, JS prepends `new`. -/
def replaceFirstStr (old new : Text) : Text → Text
  | [] => if old.isPrefixOf ([] : Text) then new else []
  | c :: rest =>
      if old.isPrefixOf (c :: rest) then new ++ (c :: rest).drop old.length
      else c :: replaceFirstStr old new rest

/-- `text.split(sep)` for a nonempty separator `s0 :: srest`:
leftmost, non-overlapping matches; `acc` holds the current segment
reversed.  `fuel` bounds the recursion depth; every call site passes
`fuel ≥ text.length`, which is never exhausted since each step
consumes at least one element. -/
def splitOnStrAux (s0 : Nat) (srest : Text) : Nat → Text → Text → List Text
  | _, [], acc => [acc.reverse]
  | 0, c :: rest, acc => [acc.reverse ++ c :: rest]
  | fuel + 1, c :: rest, acc =>
      if (s0 :: srest).isPrefixOf (c :: rest) then
        acc.reverse :: splitOnStrAux s0 srest fuel (rest.drop srest.length) []
      else splitOnStrAux s0 srest fuel rest (c :: acc)

/-- `text.split(sep)` (JS semantics: empty separator splits into
single code points, and an empty text then yields `[]`). -/
def splitOnStr (sep text : Text) : List Text :=
  match sep with
  | [] => text.map (fun c => [c])
  | s0 :: srest => splitOnStrAux s0 srest text.length text []

/-- The transform of `replace` (line 134): `text.replace(old, new)`. -/
def replaceTf (old new : Text) : Tf := fun text =>
  .ok (replaceFirstStr old new text)

/-- The transform of `replaceAll` (line 138):
`text.split(old).join(new)`. -/
def replaceAllTf (old new : Text) : Tf := fun text =>
  .ok (List.intercalate new (splitOnStr old text))

/-- `lines.splice(idx, 0, x)` for `0 ≤ idx ≤ lines.length`. -/
def spliceInsert (idx : Nat) (x : Text) (lines : List Text) : List Text :=
  lines.take idx ++ [x] ++ lines.drop idx

/-- The newline code point used as the line separator. -/
def nl : Nat := 10

/-- The transform of `lineInsert` (lines 141-151).  `n` is the parsed
1-indexed line number. -/
def lineInsertTf (n : Int) (newLine : Text) : Tf := fun text =>
  let lines := splitOnStr [nl] text
  let idx : Int := n - 1
  if idx < 0 ∨ idx > (lines.length : Int) then
    .error (.outOfRange ("line " ++ toString n ++ " out of range (1-"
      ++ toString (lines.length + 1) ++ ")"))
  else .ok (List.intercalate [nl] (spliceInsert idx.toNat newLine lines))

/-- The transform of `lineDelete` (lines 153-163). -/
def lineDeleteTf (n : Int) : Tf := fun text =>
  let lines := splitOnStr [nl] text
  let idx : Int := n - 1
  if idx < 0 ∨ idx ≥ (lines.length : Int) then
    .error (.outOfRange ("line " ++ toString n ++ " out of range (1-"
      ++ toString lines.length ++ ")"))
  else .ok (List.intercalate [nl] (lines.take idx.toNat ++ lines.drop (idx.toNat + 1)))

/-- The transform of `lineReplace` (lines 165-175). -/
def lineReplaceTf (n : Int) (newLine : Text) : Tf := fun text =>
  let lines := splitOnStr [nl] text
  let idx : Int := n - 1
  if idx < 0 ∨ idx ≥ (lines.length : Int) then
    .error (.outOfRange ("line " ++ toString n ++ " out of range (1-"
      ++ toString lines.length ++ ")"))
  else .ok (List.intercalate [nl] (lines.set idx.toNat newLine))

/-- The transform of `append` (lines 177-179). -/
def appendTf (t : Text) : Tf := fun content => .ok (content ++ t)

/-- The transform of `prepend` (lines 181-183). -/
def prependTf (t : Text) : Tf := fun content => .ok (t ++ content)

/-- `replace` (src/main.js lines 133-135). -/
def replace (s : Store) (name : String) (old new : Text) :
    Store × Except Err String :=
  edit s name (replaceTf old new)

/-- `replaceAll` (src/main.js lines 137-139). -/
def replaceAll (s : Store) (name : String) (old new : Text) :
    Store × Except Err String :=
  edit s name (replaceAllTf old new)

/-- `lineInsert` (src/main.js lines 141-151). -/
def lineInsert (s : Store) (name : String) (n : Int) (newLine : Text) :
    Store × Except Err String :=
  edit s name (lineInsertTf n newLine)

/-- `lineDelete` (src/main.js lines 153-163). -/
def lineDelete (s : Store) (name : String) (n : Int) :
    Store × Except Err String :=
  edit s name (lineDeleteTf n)

/-- `lineReplace` (src/main.js lines 165-175). -/
def lineReplace (s : Store) (name : String) (n : Int) (newLine : Text) :
    Store × Except Err String :=
  edit s name (lineReplaceTf n newLine)

/-- `append` (src/main.js lines 177-179). -/
def append (s : Store) (name : String) (t : Text) :
    Store × Except Err String :=
  edit s name (appendTf t)

/-- `prepend` (src/main.js lines 181-183). -/
def prepend (s : Store) (name : String) (t : Text) :
    Store × Except Err String :=
  edit s name (prependTf t)

/-! ## LLM ingestion (`llm`, src/main.js lines 186-254)

The upstream completion API is an external collaborator; its response
is a parameter of the invocation.  A successful response is the finite
sequence of content fragments extracted by the SSE/JSON decoding loop
(lines 213-243), in arrival order; the request fields (model, system,
prompt) do not influence the modelled behaviour and are elided.  The
`OPENROUTER_API_KEY` environment variable is modelled as an `Option`
parameter. -/

/-- The upstream response, as seen by the core. -/
inductive UpstreamResponse where
  /-- `!response.ok`: a non-success status with its body text. -/
  | failure (status : Nat) (body : String)
  /-- A successful stream, as the extracted content fragments. -/
  | success (fragments : List Text)
deriving Repr, DecidableEq

/-- `llm` (src/main.js lines 186-254), returning the final store, the
total text written to standard output, and the outcome.  Note lines
245-248: when the accumulated output is nonempty and lacks a trailing
newline, a newline is written to standard output only; line 251 then
persists `fullOutput` itself, so the trailing newline reaches standard
output only. -/
def llmStdout (t : Text) : Text :=
  if t ≠ [] ∧ t.getLast? ≠ some nl then t ++ [nl] else t

def llmRun (s : Store) (apiKey : Option String) (resp : UpstreamResponse) :
    Store × Text × Except Err String :=
  match apiKey with
  | none => (s, [], .error .noApiKey)
  | some _ =>
    match resp with
    | .failure status body => (s, [], .error (.upstream status body))
    | .success fragments =>
        ((writeCAS s (utf8Encode fragments.flatten)).1,
          llmStdout fragments.flatten,
          .ok (writeCAS s (utf8Encode fragments.flatten)).2)

/-! ## Audit log and dispatch (`logAudit`, `runCommand`, `main`)

One invocation = one parsed command (the spec scopes CLI argument
parsing out; `write`'s stdin/file bytes and `llm`'s upstream response
are parameters).  The audit table row is modelled without the
timestamp (real time) and the serialized argument list, neither of
which any claim constrains. -/

/-- One row of the `audit_log` table (src/main.js lines 51-78). -/
structure AuditRecord where
  command : String
  success : Bool
  errorMessage : Option String
  outputName : Option String
deriving Repr, DecidableEq

/-- A parsed top-level command with its external inputs resolved. -/
inductive Command where
  /-- `write -` / `write <file>` with the bytes already read. -/
  | write (data : Bytes)
  | read (name : String)
  | replace (name : String) (old new : Text)
  | replaceAll (name : String) (old new : Text)
  | lineInsert (name : String) (n : Int) (t : Text)
  | lineDelete (name : String) (n : Int)
  | lineReplace (name : String) (n : Int) (t : Text)
  | append (name : String) (t : Text)
  | prepend (name : String) (t : Text)
  /-- `llm`, with the environment credential and upstream response. -/
  | llm (apiKey : Option String) (resp : UpstreamResponse)
deriving Repr, DecidableEq

/-- The command-name string logged for each command. -/
def Command.name : Command → String
  | .write _ => "write"
  | .read _ => "read"
  | .replace .. => "replace"
  | .replaceAll .. => "replace-all"
  | .lineInsert .. => "line-insert"
  | .lineDelete .. => "line-delete"
  | .lineReplace .. => "line-replace"
  | .append .. => "append"
  | .prepend .. => "prepend"
  | .llm .. => "llm"

/-- Is this the (non-writing) `read` command? -/
def Command.isRead : Command → Bool
  | .read _ => true
  | _ => false

/-- `runCommand` (src/main.js lines 256-322): dispatch to the
operation; the `Option String` outcome is the printed output name
(`null` for `read`, line 269). -/
def runCommand (s : Store) (cmd : Command) :
    Store × Except Err (Option String) :=
  match cmd with
  | .write data => ((writeCAS s data).1, .ok (some (writeCAS s data).2))
  | .read name =>
    match readCAS s name with
    | .ok _ => (s, .ok none)
    | .error e => (s, .error e)
  | .replace name old new =>
      ((replace s name old new).1, (replace s name old new).2.map some)
  | .replaceAll name old new =>
      ((replaceAll s name old new).1, (replaceAll s name old new).2.map some)
  | .lineInsert name n t =>
      ((lineInsert s name n t).1, (lineInsert s name n t).2.map some)
  | .lineDelete name n =>
      ((lineDelete s name n).1, (lineDelete s name n).2.map some)
  | .lineReplace name n t =>
      ((lineReplace s name n t).1, (lineReplace s name n t).2.map some)
  | .append name t => ((append s name t).1, (append s name t).2.map some)
  | .prepend name t => ((prepend s name t).1, (prepend s name t).2.map some)
  | .llm apiKey resp =>
      ((llmRun s apiKey resp).1, (llmRun s apiKey resp).2.2.map some)

/-- `main` (src/main.js lines 324-345): run the command, then append
exactly one audit record describing the outcome (`logAudit`, lines
64-78).  Returns the final store and audit log. -/
def mainRun (s : Store) (log : List AuditRecord) (cmd : Command) :
    Store × List AuditRecord :=
  match (runCommand s cmd).2 with
  | .ok out => ((runCommand s cmd).1, log ++ [⟨cmd.name, true, none, out⟩])
  | .error e =>
      ((runCommand s cmd).1, log ++ [⟨cmd.name, false, some e.message, none⟩])

/-! ## Store lemmas -/

theorem lookupLoc_mem_keys {s : Store} {p : Loc} {d : Bytes}
    (h : lookupLoc s p = some d) : p ∈ s.map Prod.fst := by
  induction s with
  | nil => simp [lookupLoc] at h
  | cons e rest ih =>
    rw [lookupLoc] at h
    by_cases he : e.1 = p
    · simp [he]
    · rw [if_neg he] at h
      simp [ih h]

theorem lookupLoc_none_of_not_mem {s : Store} {p : Loc}
    (h : p ∉ s.map Prod.fst) : lookupLoc s p = none := by
  induction s with
  | nil => rfl
  | cons e rest ih =>
    simp only [List.map_cons, List.mem_cons, not_or] at h
    rw [lookupLoc, if_neg (fun he => h.1 he.symm)]
    exact ih h.2

/-- The hash returned by `put` is always the content digest. -/
theorem writeCAS_snd (s : Store) (b : Bytes) :
    (writeCAS s b).2 = computeHash b := by
  unfold writeCAS
  split <;> rfl

/-- After `put`, a blob exists at the digest's location. -/
theorem existsAt_writeCAS_self (s : Store) (b : Bytes) :
    existsAt (writeCAS s b).1 (getFilePath (computeHash b)) = true := by
  unfold writeCAS
  split
  · assumption
  · simp [existsAt, lookupLoc]

/-- `put` never changes an occupied location. -/
theorem writeCAS_preserves {s : Store} {p : Loc} {d : Bytes} (b : Bytes)
    (h : lookupLoc s p = some d) : lookupLoc (writeCAS s b).1 p = some d := by
  unfold writeCAS
  split
  · exact h
  · rename_i hex
    rw [lookupLoc]
    split
    · rename_i heq
      have heq2 : getFilePath (computeHash b) = p := heq
      rw [heq2] at hex
      exact absurd (by simp [existsAt, h]) hex
    · exact h

/-- In a store with no duplicate paths, an occupied location holds
exactly one entry. -/
theorem filter_length_one {s : Store} {p : Loc} {d : Bytes}
    (hwf : (s.map Prod.fst).Nodup) (h : lookupLoc s p = some d) :
    (s.filter (fun e => decide (e.1 = p))).length = 1 := by
  induction s with
  | nil => simp [lookupLoc] at h
  | cons e rest ih =>
    simp only [List.map_cons, List.nodup_cons] at hwf
    rw [lookupLoc] at h
    by_cases he : e.1 = p
    · rw [List.filter_cons_of_pos (by simp [he])]
      have hnone : rest.filter (fun e => decide (e.1 = p)) = [] := by
        refine List.filter_eq_nil_iff.mpr (fun a ha => ?_)
        simp only [decide_eq_true_eq]
        intro hap
        exact hwf.1 (he ▸ hap ▸ List.mem_map_of_mem Prod.fst ha)
      simp [hnone]
    · rw [if_neg he] at h
      rw [List.filter_cons_of_neg (by simp [he])]
      exact ih hwf.2 h

/-! ## UTF-8 lemmas -/

theorem lossyDecode_cons (b0 : Nat) (rest : List Nat) :
    lossyDecode (b0 :: rest) =
      (utf8Step b0 rest).1 :: lossyDecode (rest.drop (utf8Step b0 rest).2) := by
  rw [lossyDecode]

theorem utf8Step_1byte {c : Nat} (h : c < 128) (bs : List Nat) :
    utf8Step c bs = (c, 0) := by
  unfold utf8Step
  rw [if_pos h]

theorem utf8Step_2byte {c : Nat} (h1 : 128 ≤ c) (h2 : c < 2048)
    (bs : List Nat) : utf8Step (192 + c / 64) ((128 + c % 64) :: bs) = (c, 1) := by
  have hcont : isCont (128 + c % 64) = true := by simp [isCont]; omega
  unfold utf8Step
  rw [if_neg (by omega), if_neg (by omega), if_pos (by omega)]
  dsimp only
  rw [if_pos hcont]
  simp only [Prod.mk.injEq, and_true, Nat.add_sub_cancel_left]
  omega

theorem utf8Step_3byte {c : Nat} (h1 : 2048 ≤ c) (h2 : c < 65536)
    (hv : ValidCp c) (bs : List Nat) :
    utf8Step (224 + c / 4096) ((128 + c / 64 % 64) :: (128 + c % 64) :: bs)
      = (c, 2) := by
  unfold ValidCp at hv
  have h3 : cont3ok (224 + c / 4096) (128 + c / 64 % 64) = true := by
    unfold cont3ok isCont
    by_cases ha : 224 + c / 4096 = 224
    · rw [if_pos ha]; simp; omega
    · rw [if_neg ha]
      by_cases hb : 224 + c / 4096 = 237
      · rw [if_pos hb]; simp; omega
      · rw [if_neg hb]; simp; omega
  have hcont : isCont (128 + c % 64) = true := by simp [isCont]; omega
  unfold utf8Step
  rw [if_neg (by omega), if_neg (by omega), if_neg (by omega),
    if_pos (by omega)]
  dsimp only
  rw [if_pos (by rw [h3, hcont]; rfl)]
  simp only [Prod.mk.injEq, and_true, Nat.add_sub_cancel_left]
  omega

theorem utf8Step_4byte {c : Nat} (h1 : 65536 ≤ c) (h2 : c < 1114112)
    (bs : List Nat) :
    utf8Step (240 + c / 262144)
      ((128 + c / 4096 % 64) :: (128 + c / 64 % 64) :: (128 + c % 64) :: bs)
      = (c, 3) := by
  have h4 : cont4ok (240 + c / 262144) (128 + c / 4096 % 64) = true := by
    unfold cont4ok isCont
    by_cases ha : 240 + c / 262144 = 240
    · rw [if_pos ha]; simp; omega
    · rw [if_neg ha]
      by_cases hb : 240 + c / 262144 = 244
      · rw [if_pos hb]; simp; omega
      · rw [if_neg hb]; simp; omega
  have hcont2 : isCont (128 + c / 64 % 64) = true := by simp [isCont]; omega
  have hcont3 : isCont (128 + c % 64) = true := by simp [isCont]; omega
  unfold utf8Step
  rw [if_neg (by omega), if_neg (by omega), if_neg (by omega),
    if_neg (by omega), if_pos (by omega)]
  dsimp only
  rw [if_pos (by rw [h4, hcont2, hcont3]; rfl)]
  simp only [Prod.mk.injEq, and_true, Nat.add_sub_cancel_left]
  omega

/-- Decoding an encoded valid code point consumes exactly its bytes. -/
theorem lossyDecode_encodeCp_append {c : Nat} (hv : ValidCp c)
    (bs : List Nat) :
    lossyDecode (utf8EncodeCp c ++ bs) = c :: lossyDecode bs := by
  have hlt : c < 1114112 := by unfold ValidCp at hv; omega
  unfold utf8EncodeCp
  by_cases h1 : c < 128
  · rw [if_pos h1]
    simp only [List.cons_append, List.nil_append]
    rw [lossyDecode_cons, utf8Step_1byte h1]
    simp
  · rw [if_neg h1]
    by_cases h2 : c < 2048
    · rw [if_pos h2]
      simp only [List.cons_append, List.nil_append]
      rw [lossyDecode_cons, utf8Step_2byte (by omega) h2]
      simp
    · rw [if_neg h2]
      by_cases h3 : c < 65536
      · rw [if_pos h3]
        simp only [List.cons_append, List.nil_append]
        rw [lossyDecode_cons, utf8Step_3byte (by omega) h3 hv]
        simp
      · rw [if_neg h3]
        simp only [List.cons_append, List.nil_append]
        rw [lossyDecode_cons, utf8Step_4byte (by omega) hlt]
        simp

/-- Lossy decoding inverts encoding on valid texts. -/
theorem lossyDecode_utf8Encode {t : Text} (hv : ∀ c ∈ t, ValidCp c) :
    lossyDecode (utf8Encode t) = t := by
  induction t with
  | nil => simp [utf8Encode, lossyDecode]
  | cons c rest ih =>
    rw [utf8Encode, lossyDecode_encodeCp_append (hv c (by simp)),
      ih (fun x hx => hv x (by simp [hx]))]

theorem lossyDecode_nil : lossyDecode [] = [] := by rw [lossyDecode]

/-- Encoding is the identity on pure-ASCII texts. -/
theorem utf8Encode_ascii {t : Text} (h : ∀ c ∈ t, c < 128) :
    utf8Encode t = t := by
  induction t with
  | nil => rfl
  | cons c rest ih =>
    rw [utf8Encode, utf8EncodeCp, if_pos (h c (by simp)),
      ih (fun x hx => h x (by simp [hx]))]
    rfl

/-- Lossy decoding is the identity on pure-ASCII byte sequences. -/
theorem lossyDecode_ascii {t : List Nat} (h : ∀ c ∈ t, c < 128) :
    lossyDecode t = t := by
  have hv : ∀ c ∈ t, ValidCp c := fun c hc => Or.inl (by
    have := h c hc; unfold ValidCp at *; omega)
  calc lossyDecode t = lossyDecode (utf8Encode t) := by rw [utf8Encode_ascii h]
    _ = t := lossyDecode_utf8Encode hv

theorem lookupLoc_isSome_iff (s : Store) (p : Loc) :
    (lookupLoc s p).isSome = true ↔ p ∈ s.map Prod.fst := by
  induction s with
  | nil => simp [lookupLoc]
  | cons e rest ih =>
    rw [lookupLoc]
    by_cases he : e.1 = p
    · simp [he]
    · rw [if_neg he]
      simp only [List.map_cons, List.mem_cons, ih]
      exact ⟨Or.inr, fun h => h.elim (fun h => absurd h.symm he) id⟩

/-- A `put` of content already present is exactly the existence check. -/
theorem writeCAS_of_exists {s : Store} {b : Bytes}
    (h : existsAt s (getFilePath (computeHash b)) = true) :
    writeCAS s b = (s, computeHash b) := by
  unfold writeCAS
  rw [if_pos h]

/-- `put` keeps the no-duplicate-paths filesystem invariant. -/
theorem writeCAS_wf {s : Store} (b : Bytes)
    (hwf : (s.map Prod.fst).Nodup) :
    (((writeCAS s b).1.map Prod.fst)).Nodup := by
  unfold writeCAS
  split
  · exact hwf
  · rename_i hex
    simp only [List.map_cons, List.nodup_cons]
    refine ⟨fun hmem => ?_, hwf⟩
    rw [← lookupLoc_isSome_iff] at hmem
    exact hex (by simpa [existsAt] using hmem)

/-- A successful `edit` leaves a blob at the returned digest. -/
theorem edit_ok_existsAt {s : Store} {name : String} {tf : Tf} {h : String}
    (he : (edit s name tf).2 = .ok h) :
    existsAt (edit s name tf).1 (getFilePath h) = true := by
  unfold edit at he ⊢
  cases hr : readCAS s name with
  | error e => rw [hr] at he; simp at he
  | ok data =>
    rw [hr] at he
    dsimp only at he ⊢
    cases ht : tf (lossyDecode data) with
    | error e => rw [ht] at he; simp at he
    | ok newText =>
      rw [ht] at he
      dsimp only at he ⊢
      injection he with he2
      rw [← he2, writeCAS_snd]
      exact existsAt_writeCAS_self s (utf8Encode newText)

/-! ## Claims -/

/-- C1: storing any byte sequence `b` (including the empty one) with
`writeCAS` and reading the returned digest back with `readCAS` returns
exactly `b`, provided no SHA-256 collision occupies `b`'s location
(the content-addressing assumption the design rests on). -/
theorem c1_put_get_roundtrip (s : Store) (b : Bytes)
    (hnc : ∀ d, lookupLoc s (getFilePath (computeHash b)) = some d → d = b) :
    readCAS (writeCAS s b).1 (writeCAS s b).2 = .ok b := by
  have hlook : lookupLoc (writeCAS s b).1 (getFilePath (computeHash b))
      = some b := by
    unfold writeCAS
    by_cases hex : existsAt s (getFilePath (computeHash b)) = true
    · rw [if_pos hex]
      simp only
      cases hl : lookupLoc s (getFilePath (computeHash b)) with
      | none => rw [existsAt, hl] at hex; simp at hex
      | some d => exact congrArg _ (hnc d hl)
    · rw [if_neg hex]
      simp only
      rw [lookupLoc, if_pos rfl]
  unfold readCAS
  rw [writeCAS_snd, hlook]

theorem c1_witness :
    (∀ d, lookupLoc ([] : Store) (getFilePath (computeHash [104])) = some d
      → d = [104]) ∧
    readCAS (writeCAS [] [104]).1 (writeCAS [] [104]).2 = .ok [104] := by
  have hnc : ∀ d, lookupLoc ([] : Store) (getFilePath (computeHash [104]))
      = some d → d = [104] := by
    intro d hd
    simp [lookupLoc] at hd
  exact ⟨hnc, c1_put_get_roundtrip [] [104] hnc⟩

/-- C2: on a store whose filesystem has no duplicate paths, `writeCAS`
returns the content digest unconditionally; a second `writeCAS` of the
same bytes returns the same digest and performs no write (the store is
returned unchanged after the existence check); and the resulting store
holds exactly one blob at that digest's location. -/
theorem c2_put_idempotent (s : Store) (b : Bytes)
    (hwf : (s.map Prod.fst).Nodup) :
    (writeCAS s b).2 = computeHash b ∧
    writeCAS (writeCAS s b).1 b = ((writeCAS s b).1, computeHash b) ∧
    ((writeCAS s b).1.filter
      (fun e => decide (e.1 = getFilePath (computeHash b)))).length = 1 := by
  refine ⟨writeCAS_snd s b, writeCAS_of_exists (existsAt_writeCAS_self s b), ?_⟩
  have hex := existsAt_writeCAS_self s b
  rw [existsAt, Option.isSome_iff_exists] at hex
  obtain ⟨d, hd⟩ := hex
  exact filter_length_one (writeCAS_wf b hwf) hd

theorem c2_witness :
    (writeCAS [] [104]).2 = computeHash [104] ∧
    writeCAS (writeCAS [] [104]).1 [104] =
      ((writeCAS [] [104]).1, computeHash [104]) ∧
    ((writeCAS [] [104]).1.filter
      (fun e => decide (e.1 = getFilePath (computeHash [104])))).length = 1 :=
  c2_put_idempotent [] [104] (by simp)

/-- C3: `edit` never modifies or removes the source blob — reading the
source digest after the edit gives exactly what it gave before — and
when the outcome is an error (read failure or a throw inside the
transform) the store is exactly the one passed in: the put happens
only after the transform succeeds. -/
theorem c3_edit_frame (s : Store) (name : String) (tf : Tf) :
    readCAS (edit s name tf).1 name = readCAS s name ∧
    (∀ e, (edit s name tf).2 = .error e → (edit s name tf).1 = s) := by
  unfold edit
  cases hr : readCAS s name with
  | error e => exact ⟨hr, fun e2 h2 => rfl⟩
  | ok data =>
    dsimp only
    cases ht : tf (lossyDecode data) with
    | error e2 => exact ⟨hr, fun e3 h3 => rfl⟩
    | ok newText =>
      dsimp only
      refine ⟨?_, fun e2 h2 => by simp at h2⟩
      unfold readCAS at hr ⊢
      cases hl : lookupLoc s (getFilePath name) with
      | none => rw [hl] at hr; simp at hr
      | some d =>
        rw [hl] at hr
        rw [writeCAS_preserves (utf8Encode newText) hl]
        exact hr

theorem c3_witness :
    (edit [] "zz" (fun t => Except.ok t)).2 = .error (.notFound "zz") ∧
    (edit [] "zz" (fun t => Except.ok t)).1 = [] := by
  have he : (edit [] "zz" (fun t => Except.ok t)).2
      = .error (.notFound "zz") := rfl
  exact ⟨he, (c3_edit_frame [] "zz" (fun t => Except.ok t)).2 _ he⟩

/-- C9: when the upstream responds with a non-success status before
streaming begins, `llm` fails with the upstream error carrying the
status and body, nothing is written to standard output, and the store
is returned exactly as it was: no content, not even partial, is
persisted. -/
theorem c9_upstream_error (s : Store) (key : String) (status : Nat)
    (body : String) :
    llmRun s (some key) (.failure status body)
      = (s, [], .error (.upstream status body)) := rfl

/-! ## Dispatch lemmas -/

theorem mainRun_fst (s : Store) (log : List AuditRecord) (cmd : Command) :
    (mainRun s log cmd).1 = (runCommand s cmd).1 := by
  unfold mainRun
  cases h : (runCommand s cmd).2 <;> rfl

theorem mainRun_snd_ok {s : Store} {cmd : Command} {out : Option String}
    (log : List AuditRecord) (h : (runCommand s cmd).2 = .ok out) :
    (mainRun s log cmd).2 = log ++ [⟨cmd.name, true, none, out⟩] := by
  unfold mainRun
  rw [h]

theorem mainRun_snd_error {s : Store} {cmd : Command} {e : Err}
    (log : List AuditRecord) (h : (runCommand s cmd).2 = .error e) :
    (mainRun s log cmd).2
      = log ++ [⟨cmd.name, false, some e.message, none⟩] := by
  unfold mainRun
  rw [h]

theorem editMap_ok_existsAt {s : Store} {name : String} {tf : Tf} {h : String}
    (hm : (edit s name tf).2.map some = .ok (some h)) :
    existsAt (edit s name tf).1 (getFilePath h) = true := by
  cases he : (edit s name tf).2 with
  | error e => rw [he] at hm; simp [Except.map] at hm
  | ok x =>
    rw [he] at hm
    simp only [Except.map] at hm
    injection hm with hm2
    injection hm2 with hm3
    exact hm3 ▸ edit_ok_existsAt he

theorem editMap_ok_some {s : Store} {name : String} {tf : Tf}
    {out : Option String} (hm : (edit s name tf).2.map some = .ok out) :
    ∃ h, out = some h := by
  cases he : (edit s name tf).2 with
  | error e => rw [he] at hm; simp [Except.map] at hm
  | ok x =>
    rw [he] at hm
    simp only [Except.map] at hm
    injection hm with hm2
    exact ⟨x, hm2.symm⟩

/-- Any output name returned by a command resolves to a stored blob in
the resulting store, and every successful non-`read` command returns
an output name. -/
theorem runCommand_spec (s : Store) (cmd : Command) :
    (∀ h, (runCommand s cmd).2 = .ok (some h) →
      existsAt (runCommand s cmd).1 (getFilePath h) = true) ∧
    (cmd.isRead = false → ∀ out, (runCommand s cmd).2 = .ok out →
      ∃ h, out = some h) := by
  cases cmd with
  | write data =>
    constructor
    · intro h hh
      dsimp only [runCommand] at hh ⊢
      injection hh with hh2
      injection hh2 with hh3
      rw [← hh3, writeCAS_snd]
      exact existsAt_writeCAS_self s data
    · intro _ out hout
      dsimp only [runCommand] at hout
      injection hout with hout2
      exact ⟨(writeCAS s data).2, hout2.symm⟩
  | read name =>
    constructor
    · intro h hh
      dsimp only [runCommand] at hh
      cases hr : readCAS s name with
      | ok d => rw [hr] at hh; simp at hh
      | error e => rw [hr] at hh; simp at hh
    · intro hread
      simp [Command.isRead] at hread
  | replace name old new =>
    exact ⟨fun h hh => editMap_ok_existsAt hh,
      fun _ out hout => editMap_ok_some hout⟩
  | replaceAll name old new =>
    exact ⟨fun h hh => editMap_ok_existsAt hh,
      fun _ out hout => editMap_ok_some hout⟩
  | lineInsert name n t =>
    exact ⟨fun h hh => editMap_ok_existsAt hh,
      fun _ out hout => editMap_ok_some hout⟩
  | lineDelete name n =>
    exact ⟨fun h hh => editMap_ok_existsAt hh,
      fun _ out hout => editMap_ok_some hout⟩
  | lineReplace name n t =>
    exact ⟨fun h hh => editMap_ok_existsAt hh,
      fun _ out hout => editMap_ok_some hout⟩
  | append name t =>
    exact ⟨fun h hh => editMap_ok_existsAt hh,
      fun _ out hout => editMap_ok_some hout⟩
  | prepend name t =>
    exact ⟨fun h hh => editMap_ok_existsAt hh,
      fun _ out hout => editMap_ok_some hout⟩
  | llm apiKey resp =>
    constructor
    · intro h hh
      cases apiKey with
      | none => dsimp only [runCommand, llmRun, Except.map] at hh; simp at hh
      | some k =>
        cases resp with
        | failure st body =>
          dsimp only [runCommand, llmRun, Except.map] at hh
          simp at hh
        | success frags =>
          dsimp only [runCommand, llmRun, Except.map] at hh ⊢
          injection hh with hh2
          injection hh2 with hh3
          rw [← hh3, writeCAS_snd]
          exact existsAt_writeCAS_self s (utf8Encode frags.flatten)
    · intro _ out hout
      cases apiKey with
      | none =>
        dsimp only [runCommand, llmRun, Except.map] at hout
        simp at hout
      | some k =>
        cases resp with
        | failure st body =>
          dsimp only [runCommand, llmRun, Except.map] at hout
          simp at hout
        | success frags =>
          dsimp only [runCommand, llmRun, Except.map] at hout
          injection hout with hout2
          exact ⟨_, hout2.symm⟩

/-- C4: every dispatched invocation, successful or failed, appends
exactly one audit record; a failed `read` of a digest absent from the
store appends a record with `success = false` and no output name. -/
theorem c4_one_audit_record (s : Store) (log : List AuditRecord)
    (cmd : Command) :
    (mainRun s log cmd).2.length = log.length + 1 ∧
    (∀ name, lookupLoc s (getFilePath name) = none →
      (mainRun s log (.read name)).2 =
        log ++ [⟨"read", false, some (name ++ " not found in CAS"), none⟩]) := by
  constructor
  · cases h : (runCommand s cmd).2 with
    | ok out => rw [mainRun_snd_ok log h]; simp
    | error e => rw [mainRun_snd_error log h]; simp
  · intro name hl
    have hrc : (runCommand s (.read name)).2 = .error (.notFound name) := by
      dsimp only [runCommand]
      unfold readCAS
      rw [hl]
    rw [mainRun_snd_error log hrc]
    rfl

theorem c4_witness :
    (mainRun [] [] (.read "zz")).2.length = 1 ∧
    (mainRun [] [] (.read "zz")).2 =
      [] ++ [⟨"read", false, some ("zz" ++ " not found in CAS"), none⟩] :=
  ⟨(c4_one_audit_record [] [] (.read "zz")).1,
    (c4_one_audit_record [] [] (.read "zz")).2 "zz" rfl⟩

/-- C5: the audit record is appended only after the command's store
effect is complete: a record carrying an output digest always refers
to a blob present in the final store, `success = false` records carry
no output name, and a successful non-`read` (writing) command's record
carries an output name resolving to a stored blob. -/
theorem c5_write_then_log (s : Store) (log : List AuditRecord)
    (cmd : Command) :
    ∃ r, (mainRun s log cmd).2 = log ++ [r] ∧
      (r.success = false → r.outputName = none) ∧
      (∀ h, r.outputName = some h →
        existsAt (mainRun s log cmd).1 (getFilePath h) = true) ∧
      (r.success = true → cmd.isRead = false →
        ∃ h, r.outputName = some h ∧
          existsAt (mainRun s log cmd).1 (getFilePath h) = true) := by
  obtain ⟨hex, hsome⟩ := runCommand_spec s cmd
  cases hrc : (runCommand s cmd).2 with
  | ok out =>
    refine ⟨⟨cmd.name, true, none, out⟩, mainRun_snd_ok log hrc, by simp,
      ?_, ?_⟩
    · intro h hh
      rw [mainRun_fst]
      exact hex h (by rw [hrc]; exact congrArg Except.ok hh)
    · intro _ hread
      obtain ⟨h, hh⟩ := hsome hread out hrc
      refine ⟨h, hh, ?_⟩
      rw [mainRun_fst]
      exact hex h (by rw [hrc]; exact congrArg Except.ok hh)
  | error e =>
    refine ⟨⟨cmd.name, false, some e.message, none⟩,
      mainRun_snd_error log hrc, fun _ => rfl, ?_, ?_⟩
    · intro h hh
      simp at hh
    · intro hs
      simp at hs

theorem c5_witness :
    existsAt (mainRun [] [] (.write [104])).1
      (getFilePath (computeHash [104])) = true := by
  obtain ⟨r, hlog, _, hout, _⟩ := c5_write_then_log [] [] (.write [104])
  have h2 : (mainRun [] [] (Command.write [104])).2
      = [⟨"write", true, none, some (computeHash [104])⟩] := rfl
  rw [h2] at hlog
  have hr : r = ⟨"write", true, none, some (computeHash [104])⟩ := by
    simpa using hlog.symm
  exact hout (computeHash [104]) (by rw [hr])

/-- `replace` is a no-op when the old string does not occur. -/
theorem replaceFirstStr_no_occurrence (old new : Text) :
    ∀ text : Text, ¬ old <:+: text → replaceFirstStr old new text = text := by
  intro text
  induction text with
  | nil =>
    intro h
    rw [replaceFirstStr, if_neg]
    intro hp
    rw [ List.isPrefixOf_iff_prefix] at hp
    exact h hp.isInfix
  | cons c rest ih =>
    intro h
    have hnp : ¬ old.isPrefixOf (c :: rest) = true := by
      intro hp
      rw [ List.isPrefixOf_iff_prefix] at hp
      exact h hp.isInfix
    have hni : ¬ old <:+: rest := by
      intro hinf
      obtain ⟨u, v, huv⟩ := hinf
      refine h ⟨c :: u, v, ?_⟩
      simp only [List.cons_append, List.append_assoc] at huv ⊢
      rw [huv]
    rw [replaceFirstStr, if_neg hnp, ih hni]

/-- Success/failure characterization of the `line-insert` transform. -/
theorem lineInsertTf_spec (n : Int) (newLine text : Text) :
    (¬(1 ≤ n ∧ n ≤ ((splitOnStr [nl] text).length : Int) + 1) →
      ∃ msg, lineInsertTf n newLine text = .error (.outOfRange msg)) ∧
    ((1 ≤ n ∧ n ≤ ((splitOnStr [nl] text).length : Int) + 1) →
      ∃ res, lineInsertTf n newLine text = .ok res) := by
  unfold lineInsertTf
  dsimp only
  split
  · rename_i hc
    exact ⟨fun _ => ⟨_, rfl⟩, fun hr => absurd hc (by omega)⟩
  · rename_i hc
    exact ⟨fun hr => absurd (by omega) hr, fun _ => ⟨_, rfl⟩⟩

/-- C6: on a stored text blob, `line-insert` at 1-indexed position `n`
succeeds exactly when `1 ≤ n ≤ lineCount + 1` (append at end+1
allowed) and fails with the out-of-range error for every other `n` —
in particular at `0` and `lineCount + 2`. -/
theorem c6_line_insert_range (s : Store) (name : String) (data : Bytes)
    (n : Int) (newLine : Text)
    (hblob : lookupLoc s (getFilePath name) = some data) :
    ((∃ h, (lineInsert s name n newLine).2 = .ok h) ↔
      1 ≤ n ∧ n ≤ ((splitOnStr [nl] (lossyDecode data)).length : Int) + 1) ∧
    (¬(1 ≤ n ∧ n ≤ ((splitOnStr [nl] (lossyDecode data)).length : Int) + 1) →
      ∃ msg, (lineInsert s name n newLine).2 = .error (.outOfRange msg)) := by
  have hread : readCAS s name = .ok data := by
    unfold readCAS
    rw [hblob]
  obtain ⟨herr, hok⟩ := lineInsertTf_spec n newLine (lossyDecode data)
  constructor
  · constructor
    · rintro ⟨h, hh⟩
      by_contra hrange
      obtain ⟨msg, hmsg⟩ := herr hrange
      unfold lineInsert edit at hh
      rw [hread] at hh
      dsimp only at hh
      rw [hmsg] at hh
      simp at hh
    · intro hrange
      obtain ⟨res, hres⟩ := hok hrange
      refine ⟨(writeCAS s (utf8Encode res)).2, ?_⟩
      unfold lineInsert edit
      rw [hread]
      dsimp only
      rw [hres]
  · intro hrange
    obtain ⟨msg, hmsg⟩ := herr hrange
    refine ⟨msg, ?_⟩
    unfold lineInsert edit
    rw [hread]
    dsimp only
    rw [hmsg]

theorem c6_witness :
    ∃ h, (lineInsert [(getFilePath "ab", ([] : Bytes))] "ab" 1 [98]).2
      = .ok h := by
  have hblob : lookupLoc [(getFilePath "ab", ([] : Bytes))]
      (getFilePath "ab") = some [] := by
    rw [lookupLoc, if_pos rfl]
  apply (c6_line_insert_range _ "ab" [] 1 [98] hblob).1.mpr
  omega

/-- C7: `replace` substitutes the first occurrence of the old string
as a literal substring and is a no-op when it is absent; `replace-all`
substitutes every occurrence: on a blob holding "aaa", replacing "a"
with "b" stores "baa" and replace-all stores "bbb". -/
theorem c7_replace_first_and_all (s : Store) (name : String)
    (hblob : lookupLoc s (getFilePath name) = some [97, 97, 97]) :
    replace s name [97] [98] =
      ((writeCAS s [98, 97, 97]).1, .ok (writeCAS s [98, 97, 97]).2) ∧
    replaceAll s name [97] [98] =
      ((writeCAS s [98, 98, 98]).1, .ok (writeCAS s [98, 98, 98]).2) ∧
    (∀ old new text : Text, ¬ old <:+: text →
      replaceFirstStr old new text = text) := by
  have hread : readCAS s name = .ok [97, 97, 97] := by
    unfold readCAS
    rw [hblob]
  have hdec : lossyDecode [97, 97, 97] = [97, 97, 97] :=
    lossyDecode_ascii (by decide)
  refine ⟨?_, ?_, replaceFirstStr_no_occurrence⟩
  · unfold replace edit
    rw [hread]
    dsimp only
    rw [hdec]
    rfl
  · unfold replaceAll edit
    rw [hread]
    dsimp only
    rw [hdec]
    rfl

theorem c7_witness :
    replace [(getFilePath "ab", [97, 97, 97])] "ab" [97] [98] =
      ((writeCAS [(getFilePath "ab", [97, 97, 97])] [98, 97, 97]).1,
        .ok (writeCAS [(getFilePath "ab", [97, 97, 97])] [98, 97, 97]).2) ∧
    replaceAll [(getFilePath "ab", [97, 97, 97])] "ab" [97] [98] =
      ((writeCAS [(getFilePath "ab", [97, 97, 97])] [98, 98, 98]).1,
        .ok (writeCAS [(getFilePath "ab", [97, 97, 97])] [98, 98, 98]).2) := by
  have hblob : lookupLoc [(getFilePath "ab", [97, 97, 97])]
      (getFilePath "ab") = some [97, 97, 97] := by
    rw [lookupLoc, if_pos rfl]
  exact ⟨(c7_replace_first_and_all _ "ab" hblob).1,
    (c7_replace_first_and_all _ "ab" hblob).2.1⟩

/-- C8 as stated is false: the trailing newline is written to standard
output only; the blob persisted for the stream "hi" is exactly "hi",
which does not end with a line separator. -/
theorem c8_counterexample :
    (llmRun [] (some "k") (.success [[104, 105]])).2.2
      = .ok (computeHash [104, 105]) ∧
    lookupLoc (llmRun [] (some "k") (.success [[104, 105]])).1
      (getFilePath (computeHash [104, 105])) = some [104, 105] ∧
    [104, 105].getLast? ≠ some nl := by
  refine ⟨rfl, ?_, by decide⟩
  show lookupLoc [(getFilePath (computeHash [104, 105]), [104, 105])]
      (getFilePath (computeHash [104, 105])) = some [104, 105]
  rw [lookupLoc, if_pos rfl]

/-- C8 (amended): when the accumulated stream output is nonempty and
does not end with a line separator, one separator is appended to the
standard-output text only; the blob persisted to the store is the
accumulated text unchanged, with no separator added. -/
theorem c8_newline_to_stdout_only (s : Store) (key : String)
    (frags : List Text) (hne : frags.flatten ≠ [])
    (hnl : frags.flatten.getLast? ≠ some nl) :
    llmRun s (some key) (.success frags) =
      ((writeCAS s (utf8Encode frags.flatten)).1,
        frags.flatten ++ [nl],
        .ok (writeCAS s (utf8Encode frags.flatten)).2) := by
  unfold llmRun llmStdout
  dsimp only
  rw [if_pos ⟨hne, hnl⟩]

theorem c8_witness :
    ([[104, 105]] : List Text).flatten ≠ [] ∧
    ([[104, 105]] : List Text).flatten.getLast? ≠ some nl ∧
    llmRun [] (some "k") (.success [[104, 105]]) =
      ((writeCAS [] (utf8Encode ([[104, 105]] : List Text).flatten)).1,
        ([[104, 105]] : List Text).flatten ++ [nl],
        .ok (writeCAS [] (utf8Encode ([[104, 105]] : List Text).flatten)).2) :=
  ⟨by decide, by decide,
    c8_newline_to_stdout_only [] "k" [[104, 105]] (by decide) (by decide)⟩

/-- C10: an `edit` whose transform is the identity on the decoded text
returns the source digest and leaves the store unchanged whenever the
stored bytes are the UTF-8 encoding of some text — and the valid-UTF-8
precondition is necessary, because the lossy decode-then-encode does
not reproduce invalid bytes such as `0xFF`. -/
theorem c10_identity_edit (s : Store) (name : String) (t : Text) (tf : Tf)
    (hvalid : ∀ c ∈ t, ValidCp c)
    (hblob : lookupLoc s (getFilePath name) = some (utf8Encode t))
    (hname : computeHash (utf8Encode t) = name)
    (htf : ∀ u, tf u = .ok u) :
    edit s name tf = (s, .ok name) ∧
    utf8Encode (lossyDecode [255]) ≠ [255] := by
  constructor
  · have hread : readCAS s name = .ok (utf8Encode t) := by
      unfold readCAS
      rw [hblob]
    unfold edit
    rw [hread]
    dsimp only
    rw [lossyDecode_utf8Encode hvalid, htf t]
    dsimp only
    have hex2 : existsAt s (getFilePath (computeHash (utf8Encode t)))
        = true := by
      rw [hname]
      simp [existsAt, hblob]
    have hw : writeCAS s (utf8Encode t) = (s, name) := by
      rw [writeCAS_of_exists hex2, hname]
    rw [hw]
  · have h255 : lossyDecode [255] = [65533] := by
      rw [lossyDecode_cons]
      have hs : utf8Step 255 [] = (65533, 0) := rfl
      rw [hs]
      simp [lossyDecode_nil]
    rw [h255]
    decide

theorem c10_witness :
    edit [(getFilePath (computeHash (utf8Encode [97])), utf8Encode [97])]
        (computeHash (utf8Encode [97])) (fun u => Except.ok u)
      = ([(getFilePath (computeHash (utf8Encode [97])), utf8Encode [97])],
          .ok (computeHash (utf8Encode [97]))) :=
  (c10_identity_edit _ _ [97] _ (by decide)
    (by rw [lookupLoc, if_pos rfl]) rfl (fun u => rfl)).1

end CasTool